import Mathlib

/-!
Shallow embedding of `snakelog` (src/snakelog/cli.py) in Lean 4, together with
theorems settling the claims of the specification against the code.

Python strings are modelled as `List Char` (`PyStr`), Python exceptions as the
`PyErr` type with fallible operations returning `Except PyErr _`, and Python
dicts as insertion-ordered association lists (replacing an existing key keeps
its position, a new key is appended, matching CPython semantics).  Floats are
modelled as exact fractions; `int()` underscore grouping and non-ASCII digits
are not modelled, and dict keys are not checked for Python hashability except
where noted.
-/

instance exceptDecEq {ε : Type u} {α : Type v} [DecidableEq ε] [DecidableEq α] :
    DecidableEq (Except ε α) := fun a b =>
  match a, b with
  | .ok x, .ok y =>
    if h : x = y then .isTrue (congrArg Except.ok h)
    else .isFalse (fun hc => h (Except.ok.inj hc))
  | .error x, .error y =>
    if h : x = y then .isTrue (congrArg Except.error h)
    else .isFalse (fun hc => h (Except.error.inj hc))
  | .ok _, .error _ => .isFalse (fun hc => Except.noConfusion hc)
  | .error _, .ok _ => .isFalse (fun hc => Except.noConfusion hc)

/-- Python string, modelled as a list of characters. -/
abbrev PyStr := List Char

/-- Shorthand turning a Lean string literal into a `PyStr`. -/
def pyS (s : String) : PyStr := s.toList

/-- The Python exceptions the embedded code can raise. -/
inductive PyErr where
  | indexError
  | valueError
  | keyError
  | typeError
  | zeroDivisionError
  | stopIteration
  | dateutilParseError
  deriving DecidableEq, Repr

/-- A Python value stored in a job dict: strings, ints, lists of strings,
string-to-string dicts, and parsed timestamps (dateutil datetimes, abstracted
to an integer code). -/
inductive Value where
  | str (s : PyStr)
  | int (n : Int)
  | strlist (xs : List PyStr)
  | strdict (xs : List (PyStr × PyStr))
  | time (t : Int)
  deriving DecidableEq, Repr

/-- Python `line.startswith(p)`. -/
def pyStartswith : PyStr → PyStr → Bool
  | _, [] => true
  | [], _ :: _ => false
  | c :: cs, p :: ps => (c == p) && pyStartswith cs ps

/-- Python `needle in hay` (substring containment). -/
def pyContains : PyStr → PyStr → Bool
  | [], needle => needle.isEmpty
  | c :: t, needle => pyStartswith (c :: t) needle || pyContains t needle

/-- Drop elements satisfying `p` from the right end of a list. -/
def rdropWhileP (p : Char → Bool) (l : PyStr) : PyStr :=
  (l.reverse.dropWhile p).reverse

/-- Strip characters satisfying `p` from both ends. -/
def stripP (p : Char → Bool) (l : PyStr) : PyStr :=
  rdropWhileP p (l.dropWhile p)

/-- Python `line.strip(cs)`: strip any of the characters of `cs` from both ends. -/
def pyStripChars (l : PyStr) (cs : PyStr) : PyStr :=
  stripP (fun c => cs.contains c) l

/-- Python `line.strip()`: strip whitespace from both ends. -/
def pyStripWs (l : PyStr) : PyStr :=
  stripP (fun c => c.isWhitespace) l

/-- Accumulator loop for `pyWords`: `acc` holds the current word reversed. -/
def pyWordsAux : PyStr → PyStr → List PyStr
  | [], acc => if acc.isEmpty then [] else [acc.reverse]
  | c :: cs, acc =>
    if c.isWhitespace then
      if acc.isEmpty then pyWordsAux cs [] else acc.reverse :: pyWordsAux cs []
    else pyWordsAux cs (c :: acc)

/-- Python `line.split()` with no separator: split on whitespace runs, dropping
empty fields. -/
def pyWords (l : PyStr) : List PyStr :=
  pyWordsAux l []

/-- Python `line.split(sep)` for a one-character separator: split on every
occurrence, keeping empty fields. -/
def pySplit (l : PyStr) (sep : Char) : List PyStr :=
  l.splitOn sep

/-- Accumulator loop for `reFindallDigits`: `acc` holds the current digit
run reversed. -/
def reFindallAux : PyStr → PyStr → List PyStr
  | [], acc => if acc.isEmpty then [] else [acc.reverse]
  | c :: cs, acc =>
    if c.isDigit then reFindallAux cs (c :: acc)
    else if acc.isEmpty then reFindallAux cs []
    else acc.reverse :: reFindallAux cs []

/-- Python `re.findall(r"\d+", line)`: the maximal runs of digits in the line. -/
def reFindallDigits (l : PyStr) : List PyStr :=
  reFindallAux l []

/-- Python `lst[i]` for a non-negative index: raises `IndexError` when out of range. -/
def pyIdx (l : List α) (i : Nat) : Except PyErr α :=
  match l[i]? with
  | some a => .ok a
  | none => .error .indexError

/-- Python `lst[-1]`: the last element, raising `IndexError` on an empty list. -/
def pyLast (l : List α) : Except PyErr α :=
  match l.getLast? with
  | some a => .ok a
  | none => .error .indexError

/-- Decimal value of a non-empty all-digit string, else `ValueError`. -/
def digitsVal (ds : PyStr) : Except PyErr Int :=
  if !ds.isEmpty && ds.all Char.isDigit then
    .ok (ds.foldl (fun a c => a * 10 + ((c.toNat : Int) - 48)) 0)
  else .error .valueError

/-- Python `int(s)` on a string: strips whitespace, allows one sign,
then requires a non-empty digit run; otherwise raises `ValueError`. -/
def pyInt (s : PyStr) : Except PyErr Int :=
  match pyStripWs s with
  | '+' :: ds => digitsVal ds
  | '-' :: ds => do
      let n ← digitsVal ds
      .ok (-n)
  | ds => digitsVal ds

/-- Association-list lookup (first occurrence), modelling `d[k]`/`d.get(k)`. -/
def alistGet? [DecidableEq κ] (k : κ) : List (κ × β) → Option β
  | [] => none
  | (k', v) :: t => if k = k' then some v else alistGet? k t

/-- Association-list store `d[k] = v`: replaces the first occurrence in
place, or appends a fresh key at the end (CPython dict order). -/
def alistSet [DecidableEq κ] (k : κ) (v : β) : List (κ × β) → List (κ × β)
  | [] => [(k, v)]
  | (k', v') :: t => if k = k' then (k, v) :: t else (k', v') :: alistSet k v t

/-- A Python dict with `PyStr` keys and `Value` values (a job record). -/
abbrev JobDict := List (PyStr × Value)

/-- Python `d.update(upd)`: store every entry of `upd` into `d`, left to right. -/
def dictUpdate (d upd : JobDict) : JobDict :=
  upd.foldl (fun acc kv => alistSet kv.1 kv.2 acc) d

/-- Python `d[k]` on a job dict: `KeyError` when the key is absent. -/
def getItem (d : JobDict) (k : PyStr) : Except PyErr Value :=
  match alistGet? k d with
  | some v => .ok v
  | none => .error .keyError

/-- Python unpacking `k, v = lst`: exactly two elements, else `ValueError`. -/
def pyUnpack2 (l : List PyStr) : Except PyErr (PyStr × PyStr) :=
  match l with
  | [a, b] => .ok (a, b)
  | _ => .error .valueError

/-- Python `{k: v for k, v in pairs}`: build a dict, later keys overwriting. -/
def pyDictOfPairs (ps : List (PyStr × PyStr)) : List (PyStr × PyStr) :=
  ps.foldl (fun d kv => alistSet kv.1 kv.2 d) []

/-- The hardcoded part of `ERROR_LABELS` from cli.py (the dynamically
discovered `snakemake.exceptions` names are passed separately). -/
def staticErrorLabels : List PyStr :=
  [pyS "SyntaxError", pyS "IndentationError", pyS "OSError",
   pyS "MissingInputException", pyS "MissingOutputException",
   pyS "AttributeError", pyS "WorkflowError", pyS "IncompleteFilesException",
   pyS "AmbiguousRuleException", pyS "KeyError", pyS "NameError",
   pyS "WildcardError", pyS "Exception", pyS "Error:", pyS "[Errno",
   pyS "KeyboardInterrupt", pyS "Exiting because", pyS "Terminating"]

/-- The function `parse_rule_grammar(line, job_dict)` from cli.py, branch for branch.
`dyn` is the dynamically discovered tail of `ERROR_LABELS` (the
`snakemake.exceptions` names ending in "Exception"). -/
def parse_rule_grammar (dyn : List PyStr) (line : PyStr) (job_dict : JobDict) :
    Except PyErr JobDict :=
  if pyStartswith line (pyS "rule") || pyStartswith line (pyS "localrule") then do
    let w ← pyIdx (pyWords (pyStripChars line (pyS ":"))) 1
    .ok [(pyS "rule", .str w)]
  else if pyStartswith line (pyS "Error in") then do
    let w ← pyLast (pyWords (pyStripChars line (pyS ":")))
    .ok [(pyS "rule", .str w), (pyS "status", .str (pyS "failed"))]
  else if pyStartswith line (pyS "cluster_jobid") then do
    let d ← pyIdx (reFindallDigits line) 0
    .ok [(pyS "external_jobid", .str d)]
  else if pyStartswith line (pyS "Finished") then do
    let w ← pyLast (pyWords (pyStripChars line (pyS ".")))
    .ok [(pyS "status", .str (pyS "finished")), (pyS "jobid", .str w)]
  else if pyStartswith line (pyS "input") then do
    let part ← pyIdx (pySplit line ':') 1
    .ok [(pyS "input", .strlist ((pySplit part ',').map pyStripWs))]
  else if pyStartswith line (pyS "output") then do
    let part ← pyIdx (pySplit line ':') 1
    .ok [(pyS "output", .strlist ((pySplit part ',').map pyStripWs))]
  else if pyStartswith line (pyS "Error") then
    .ok [(pyS "status", .str (pyS "failed"))]
  else if pyStartswith line (pyS "params") then do
    let part ← pyIdx (pySplit line ':') 1
    let prs ← ((pySplit part ',').map (fun x => pySplit (pyStripWs x) '=')).mapM pyUnpack2
    .ok [(pyS "params", .strdict (pyDictOfPairs prs))]
  else if pyStartswith line (pyS "wildcards") then do
    let part ← pyIdx (pySplit line ':') 1
    let prs ← ((pySplit part ',').map (fun x => pySplit (pyStripWs x) '=')).mapM pyUnpack2
    .ok [(pyS "wildcards", .strdict (pyDictOfPairs prs))]
  else if pyStartswith line (pyS "resources") then do
    let part ← pyIdx (pySplit line ':') 1
    let prs ← ((pySplit part ',').map (fun x => pySplit (pyStripWs x) '=')).mapM pyUnpack2
    .ok [(pyS "resources", .strdict (pyDictOfPairs prs))]
  else if pyStartswith line (pyS "jobid") then do
    let part ← pyIdx (pySplit line ':') 1
    let n ← pyInt (pyStripWs part)
    .ok [(pyS "jobid", .int n)]
  else if pyStartswith line (pyS "log") then do
    let part ← pyIdx (pySplit line ':') 1
    .ok [(pyS "log", .str (pyStripWs part))]
  else if pyStartswith line (pyS "threads") then do
    let part ← pyIdx (pySplit line ':') 1
    let n ← pyInt (pyStripWs part)
    .ok [(pyS "threads", .int n)]
  else if pyStartswith line (pyS "Submitted") then
    if !(reFindallDigits line).isEmpty then do
      let s ← pyIdx (reFindallDigits line) 1
      .ok [(pyS "external_jobid", .str s), (pyS "status", .str (pyS "submitted"))]
    else
      .ok [(pyS "external_jobid", .strlist []), (pyS "status", .str (pyS "submitted"))]
  else if (staticErrorLabels ++ dyn).any (fun x => pyStartswith line x) &&
      !(alistGet? (pyS "status") job_dict == some (Value.str (pyS "finished"))) then
    .ok [(pyS "status", .str (pyS "failed"))]
  else
    .ok [(pyS "kwargs", .str (pyStripWs line))]

/-- The `SnakemakeStatus` enum from cli.py. -/
inductive SnakemakeStatus where
  | SUCCESS
  | ERROR
  | UNLOCKED
  | CATCHALL_ERROR
  deriving DecidableEq, Repr

/-- Python `int(v)` on a stored value: identity on ints, string parsing on
strings, `TypeError` on lists, dicts and datetimes. -/
def intOfValue : Value → Except PyErr Int
  | .int n => .ok n
  | .str s => pyInt s
  | _ => .error .typeError

/-- Python `int(job_dict["jobid"])` from the block-closing line of
`SnakeObject.__parse_jobs_in_log`. -/
def getJobidAsInt (jd : JobDict) : Except PyErr Int := do
  let v ← getItem jd (pyS "jobid")
  intOfValue v

/-- The accumulated job mapping `jobs : defaultdict(dict)`. -/
abbrev Jobs := List (Int × JobDict)

/-- Python `jobs[jid].update(**job_dict)` on the defaultdict of job records. -/
def jobsUpdate (jobs : Jobs) (jid : Int) (jd : JobDict) : Jobs :=
  alistSet jid (dictUpdate ((alistGet? jid jobs).getD []) jd) jobs

instance jobsDecEq : DecidableEq Jobs := instDecidableEqList

/-- Number of lines held in a lookahead slot (0 or 1), used to measure the
unread part of the stream. -/
def optCount : Option α → Nat
  | none => 0
  | some _ => 1

/-- The result triple `(err, msg, jobs)` of `__parse_jobs_in_log`. -/
abbrev ScanResult := Option SnakemakeStatus × PyStr × Jobs

instance scanResultDecEq : DecidableEq ScanResult := instDecidableEqProd

/-- The inner `while (_line := next(f, None)) and not _line.startswith("[")`
loop of `__parse_jobs_in_log`: feeds non-blank lines to the classifier and
returns the updated record, the lookahead line that ended the loop
(`None`, an empty string, or a `[` line) and the unread rest of the file. -/
def innerScan (dyn : List PyStr) : List PyStr → JobDict →
    Except PyErr (JobDict × Option PyStr × List PyStr)
  | [], jd => .ok (jd, none, [])
  | l :: ls, jd =>
    if l.isEmpty then .ok (jd, some l, ls)
    else if pyStartswith l (pyS "[") then .ok (jd, some l, ls)
    else if (pyStripWs l).isEmpty then innerScan dyn ls jd
    else
      match parse_rule_grammar dyn (pyStripWs l) jd with
      | .error e => .error e
      | .ok upd => innerScan dyn ls (dictUpdate jd upd)

/-- The outer `while line := begin` loop of `__parse_jobs_in_log`.  `pts`
models the external `dateutil.parser.parse` (`none` = it raises), `begin`
is the lookahead line (`none` models Python `None`), `rest` the unread
lines.  The `fuel` argument only bounds the recursion depth;
`scanLoop_fuel_sufficient` below shows the standard fuel never runs out,
so the `none` result (fuel exhaustion) never reaches `parse_jobs_in_log`. -/
def scanLoop (dyn : List PyStr) (pts : PyStr → Option Int) :
    Nat → Option PyStr → List PyStr → Jobs → Option (Except PyErr ScanResult)
  | 0, _, _, _ => none
  | _ + 1, none, _, jobs => some (.ok (none, pyS "", jobs))
  | fuel + 1, some line, rest, jobs =>
    if line.isEmpty then some (.ok (none, pyS "", jobs))
    else if pyStartswith line (pyS "[") && !pyContains line (pyS "error") then
      match pts (pyStripChars line (pyS "[]\n")) with
      | none => some (.error .dateutilParseError)
      | some ts =>
        match innerScan dyn rest [(pyS "timestamp", Value.time ts)] with
        | .error e => some (.error e)
        | .ok (jd, begin', rest') =>
          match getJobidAsInt jd with
          | .error e => some (.error e)
          | .ok jid => scanLoop dyn pts fuel begin' rest' (jobsUpdate jobs jid jd)
    else if (staticErrorLabels ++ dyn).any (fun x => pyStartswith line x) then
      some (.ok (some .ERROR, pyS "Snakemake exited with an error", jobs))
    else if pyStartswith line (pyS "Unlocking") then
      some (.ok (some .UNLOCKED, pyS "Snakemake directory was unlocked", jobs))
    else if pyStartswith line (pyS "Nothing to be done") then
      some (.ok (some .SUCCESS, pyS "Nothing to be done", jobs))
    else scanLoop dyn pts fuel rest.head? rest.tail jobs

/-- The method `SnakeObject.__parse_jobs_in_log`, over the file's list of raw lines
(each still carrying its trailing newline, as Python file iteration yields
them).  The initial `next(f)` raises `StopIteration` on an empty file. -/
def parse_jobs_in_log (dyn : List PyStr) (pts : PyStr → Option Int)
    (lines : List PyStr) : Option (Except PyErr ScanResult) :=
  match lines with
  | [] => some (.error .stopIteration)
  | first :: rest => scanLoop dyn pts (lines.length + 1) (some first) rest []

/-- A concrete stand-in for `dateutil.parser.parse` that fails on every
input, usable where no timestamp line is reached. -/
def noTS : PyStr → Option Int := fun _ => none

/-- A concrete stand-in for `dateutil.parser.parse` recognizing exactly the
string "2023-05-01" (and, like dateutil, failing on anything containing
"error"). -/
def tsParse1 : PyStr → Option Int :=
  fun s => if s = pyS "2023-05-01" then some 20230501 else none

/-- Whether a `Value` is hashable in Python (usable as a dict key):
strings, ints and datetimes are, lists and dicts are not. -/
def pyHashable : Value → Bool
  | .strlist _ => false
  | .strdict _ => false
  | _ => true

/-- The `summary_dict` built by `SnakeObject._execution_summary`: a dict
from rule value to a dict of integer counters (the counter keys are the
string "number_of_jobs" alongside the observed status values). -/
abbrev Summary := List (Value × List (Value × Int))

/-- One iteration of the `for v in jobs.values()` loop of
`SnakeObject._execution_summary`.  `v["rule"]` raises `KeyError` when
absent; using an unhashable value as a dict key raises `TypeError`. -/
def execution_summary_step (sm : Summary) (v : JobDict) : Except PyErr Summary := do
  let r ← getItem v (pyS "rule")
  if !pyHashable r then .error .typeError
  else
    let inner := (alistGet? r sm).getD []
    let sm1 := alistSet r (alistSet (Value.str (pyS "number_of_jobs"))
        ((alistGet? (Value.str (pyS "number_of_jobs")) inner).getD 0 + 1) inner) sm
    match alistGet? (pyS "status") v with
    | none => .ok sm1
    | some st =>
      if !pyHashable st then .error .typeError
      else
        let inner2 := (alistGet? r sm1).getD []
        .ok (alistSet r (alistSet st ((alistGet? st inner2).getD 0 + 1) inner2) sm1)

/-- The loop of `SnakeObject._execution_summary`, lines 301-308. -/
def execution_summary_go (sm : Summary) : List JobDict → Except PyErr Summary
  | [] => .ok sm
  | v :: vs =>
    match execution_summary_step sm v with
    | .error e => .error e
    | .ok sm' => execution_summary_go sm' vs

/-- The aggregation loop of `SnakeObject._execution_summary`, applied to the
list `jobs.values()` of parsed job records. -/
def execution_summary (vs : List JobDict) : Except PyErr Summary :=
  execution_summary_go [] vs

/-- The quantity `sum(counts[r]["number_of_jobs"] for r in summary)` (missing counters
count as 0), the quantity the summarizer claim is about. -/
def total_number_of_jobs (sm : Summary) : Int :=
  (sm.map (fun e => (alistGet? (Value.str (pyS "number_of_jobs")) e.2).getD 0)).sum

/-- The counter `summary[r][st]` with a default of 0: the per-rule, per-status counter. -/
def statusCount (sm : Summary) (r st : Value) : Int :=
  (alistGet? st ((alistGet? r sm).getD [])).getD 0

/-- The number of job records carrying rule `r` and status `st`. -/
def countRecords (vs : List JobDict) (r st : Value) : Nat :=
  (vs.filter (fun v =>
    alistGet? (pyS "rule") v == some r && alistGet? (pyS "status") v == some st)).length

/-- The `JobStats` dataclass of cli.py; every field is filled from a
whitespace-split table row, so the values are strings, and each defaults
to `None` (also the value of attribute access on the bare class). -/
structure JobStats where
  name : Option PyStr := none
  count : Option PyStr := none
  min_threads : Option PyStr := none
  max_threads : Option PyStr := none
  deriving DecidableEq, Repr

/-- The expression `stats.get("total", JobStats).count`: the declared total row's count
string, or `None` when the row is absent (attribute access on the class
default). -/
def statsTotalCount (stats : List (PyStr × JobStats)) : Option PyStr :=
  match alistGet? (pyS "total") stats with
  | some js => js.count
  | none => none

/-- Python `int(x)` where `x` is the optional count string: `int(None)` raises
`TypeError`. -/
def pyIntOfOptStr : Option PyStr → Except PyErr Int
  | none => .error .typeError
  | some s => pyInt s

/-- A Python float arising from dividing two ints, modelled as the exact
(unnormalized) fraction `num / den`. -/
structure PyFloat where
  num : Int
  den : Int
  deriving DecidableEq, Repr

/-- Python `a / b` on ints: true division, `ZeroDivisionError` on 0. -/
def pyTrueDiv (a b : Int) : Except PyErr PyFloat :=
  if b = 0 then .error .zeroDivisionError else .ok ⟨a, b⟩

/-- Multiplying such a float by an integer literal. -/
def floatMulInt (q : PyFloat) (n : Int) : PyFloat :=
  ⟨q.num * n, q.den⟩

/-- Python `int()` on a float: truncation toward zero. -/
def pyIntOfFloat (q : PyFloat) : Int :=
  q.num.tdiv q.den

/-- The summary tail of `SnakeObject.status` (cli.py lines 384-401): the
phrase choice `total_finished_so_far < int(stats.get("total", JobStats).count)`
followed by `pct_failed` and `pct_finished`, each computed as
`int((so_far / int(stats.get("total", JobStats).count)) * 100)`. -/
def status_percentages (stats : List (PyStr × JobStats))
    (total_finished_so_far total_failed_so_far : Int) :
    Except PyErr (Bool × Int × Int) := do
  let c1 ← pyIntOfOptStr (statsTotalCount stats)
  let phraseOnly := decide (total_finished_so_far < c1)
  let c2 ← pyIntOfOptStr (statsTotalCount stats)
  let qf ← pyTrueDiv total_failed_so_far c2
  let pct_failed := pyIntOfFloat (floatMulInt qf 100)
  let c3 ← pyIntOfOptStr (statsTotalCount stats)
  let qn ← pyTrueDiv total_finished_so_far c3
  let pct_finished := pyIntOfFloat (floatMulInt qn 100)
  .ok (phraseOnly, pct_failed, pct_finished)















theorem alistGet?_set_self [DecidableEq κ] (k : κ) (v : β) (l : List (κ × β)) :
    alistGet? k (alistSet k v l) = some v := by
  induction l with
  | nil => simp [alistSet, alistGet?]
  | cons hd t ih =>
    obtain ⟨k', v'⟩ := hd
    by_cases hk : k = k'
    · simp [alistSet, hk, alistGet?]
    · simp [alistSet, hk, alistGet?, ih]

theorem alistGet?_set_ne [DecidableEq κ] (k k' : κ) (v : β) (l : List (κ × β))
    (h : k ≠ k') : alistGet? k (alistSet k' v l) = alistGet? k l := by
  induction l with
  | nil => simp [alistSet, alistGet?, h]
  | cons hd t ih =>
    obtain ⟨k'', v''⟩ := hd
    by_cases hk : k' = k''
    · subst hk
      simp [alistSet, alistGet?, h]
    · by_cases hkk : k = k''
      · simp [alistSet, hk, alistGet?, hkk]
      · simp [alistSet, hk, alistGet?, hkk, ih]

theorem pyStartswith_iff (l p : PyStr) : pyStartswith l p = true ↔ p <+: l := by
  induction p generalizing l with
  | nil => simp [pyStartswith]
  | cons c cs ih =>
    cases l with
    | nil => simp [pyStartswith]
    | cons d ds =>
      rw [List.cons_prefix_cons]
      simp only [pyStartswith, Bool.and_eq_true, beq_iff_eq, ih]
      constructor
      · rintro ⟨h1, h2⟩
        exact ⟨h1.symm, h2⟩
      · rintro ⟨h1, h2⟩
        exact ⟨h1.symm, h2⟩

theorem pyContains_iff (hay needle : PyStr) :
    pyContains hay needle = true ↔ needle <:+: hay := by
  induction hay with
  | nil => simp [pyContains, List.isEmpty_iff, List.infix_nil]
  | cons c t ih =>
    rw [List.infix_cons_iff]
    simp [pyContains, ih, pyStartswith_iff]

theorem infix_dropWhile_of_notin (p : Char → Bool) (n l : PyStr)
    (hn : ∀ c ∈ n, p c = false) (h : n <:+: l) : n <:+: l.dropWhile p := by
  induction l with
  | nil => simpa using h
  | cons c t ih =>
    by_cases hc : p c
    · rw [List.dropWhile_cons_of_pos hc]
      rcases List.infix_cons_iff.mp h with hpre | hinf
      · cases n with
        | nil => exact List.nil_infix
        | cons m ms =>
          obtain ⟨rfl, -⟩ := List.cons_prefix_cons.mp hpre
          have := hn m (List.mem_cons_self m ms)
          rw [this] at hc
          cases hc
      · exact ih hinf
    · rw [List.dropWhile_cons_of_neg hc]
      exact h

theorem infix_rdropWhileP_of_notin (p : Char → Bool) (n l : PyStr)
    (hn : ∀ c ∈ n, p c = false) (h : n <:+: l) : n <:+: rdropWhileP p l := by
  unfold rdropWhileP
  rw [← List.reverse_infix, List.reverse_reverse]
  refine infix_dropWhile_of_notin p n.reverse l.reverse ?_ ?_
  · intro c hc
    exact hn c (List.mem_reverse.mp hc)
  · rw [ List.reverse_infix]
    exact h

theorem pyContains_stripP_of_notin (p : Char → Bool) (n l : PyStr)
    (hn : ∀ c ∈ n, p c = false) (h : pyContains l n = true) :
    pyContains (stripP p l) n = true := by
  rw [pyContains_iff] at h ⊢
  exact infix_rdropWhileP_of_notin p n _ hn
    (infix_dropWhile_of_notin p n l hn h)

theorem alistGet?_eq_none_of_all_ne [DecidableEq κ] (k : κ) (l : List (κ × β))
    (h : (l.all fun kv => !(kv.1 == k)) = true) : alistGet? k l = none := by
  induction l with
  | nil => rfl
  | cons hd t ih =>
    obtain ⟨k', v'⟩ := hd
    simp only [List.all_cons, Bool.and_eq_true, Bool.not_eq_eq_eq_not, Bool.not_true,
      beq_eq_false_iff_ne, ne_eq] at h
    have h1 : ¬ k = k' := fun hh => h.1 hh.symm
    simp [alistGet?, h1, ih h.2]

theorem except_bind_ok {ε : Type u} {α β : Type v} (x : Except ε α)
    (f : α → Except ε β) (b : β) (h : (x >>= f) = .ok b) :
    ∃ a, x = .ok a ∧ f a = .ok b := by
  cases x with
  | error e => exact Except.noConfusion h
  | ok a => exact ⟨a, rfl, h⟩

/-- No field update produced by the line classifier touches the
"timestamp" key (stated on the keys of the update list). -/
theorem parse_rule_grammar_no_timestamp_key (dyn : List PyStr) (line : PyStr)
    (jd upd : JobDict) (h : parse_rule_grammar dyn line jd = .ok upd) :
    (upd.all fun kv => !(kv.1 == pyS "timestamp")) = true := by
  unfold parse_rule_grammar at h
  by_cases c1 : (pyStartswith line (pyS "rule") || pyStartswith line (pyS "localrule")) = true
  · rw [if_pos c1] at h
    obtain ⟨w, -, h⟩ := except_bind_ok _ _ _ h
    injection h with h
    subst h
    rfl
  rw [if_neg c1] at h
  by_cases c2 : pyStartswith line (pyS "Error in") = true
  · rw [if_pos c2] at h
    obtain ⟨w, -, h⟩ := except_bind_ok _ _ _ h
    injection h with h
    subst h
    rfl
  rw [if_neg c2] at h
  by_cases c3 : pyStartswith line (pyS "cluster_jobid") = true
  · rw [if_pos c3] at h
    obtain ⟨w, -, h⟩ := except_bind_ok _ _ _ h
    injection h with h
    subst h
    rfl
  rw [if_neg c3] at h
  by_cases c4 : pyStartswith line (pyS "Finished") = true
  · rw [if_pos c4] at h
    obtain ⟨w, -, h⟩ := except_bind_ok _ _ _ h
    injection h with h
    subst h
    rfl
  rw [if_neg c4] at h
  by_cases c5 : pyStartswith line (pyS "input") = true
  · rw [if_pos c5] at h
    obtain ⟨w, -, h⟩ := except_bind_ok _ _ _ h
    injection h with h
    subst h
    rfl
  rw [if_neg c5] at h
  by_cases c6 : pyStartswith line (pyS "output") = true
  · rw [if_pos c6] at h
    obtain ⟨w, -, h⟩ := except_bind_ok _ _ _ h
    injection h with h
    subst h
    rfl
  rw [if_neg c6] at h
  by_cases c7 : pyStartswith line (pyS "Error") = true
  · rw [if_pos c7] at h
    injection h with h
    subst h
    rfl
  rw [if_neg c7] at h
  by_cases c8 : pyStartswith line (pyS "params") = true
  · rw [if_pos c8] at h
    obtain ⟨w, -, h⟩ := except_bind_ok _ _ _ h
    obtain ⟨w2, -, h⟩ := except_bind_ok _ _ _ h
    injection h with h
    subst h
    rfl
  rw [if_neg c8] at h
  by_cases c9 : pyStartswith line (pyS "wildcards") = true
  · rw [if_pos c9] at h
    obtain ⟨w, -, h⟩ := except_bind_ok _ _ _ h
    obtain ⟨w2, -, h⟩ := except_bind_ok _ _ _ h
    injection h with h
    subst h
    rfl
  rw [if_neg c9] at h
  by_cases c10 : pyStartswith line (pyS "resources") = true
  · rw [if_pos c10] at h
    obtain ⟨w, -, h⟩ := except_bind_ok _ _ _ h
    obtain ⟨w2, -, h⟩ := except_bind_ok _ _ _ h
    injection h with h
    subst h
    rfl
  rw [if_neg c10] at h
  by_cases c11 : pyStartswith line (pyS "jobid") = true
  · rw [if_pos c11] at h
    obtain ⟨w, -, h⟩ := except_bind_ok _ _ _ h
    obtain ⟨w2, -, h⟩ := except_bind_ok _ _ _ h
    injection h with h
    subst h
    rfl
  rw [if_neg c11] at h
  by_cases c12 : pyStartswith line (pyS "log") = true
  · rw [if_pos c12] at h
    obtain ⟨w, -, h⟩ := except_bind_ok _ _ _ h
    injection h with h
    subst h
    rfl
  rw [if_neg c12] at h
  by_cases c13 : pyStartswith line (pyS "threads") = true
  · rw [if_pos c13] at h
    obtain ⟨w, -, h⟩ := except_bind_ok _ _ _ h
    obtain ⟨w2, -, h⟩ := except_bind_ok _ _ _ h
    injection h with h
    subst h
    rfl
  rw [if_neg c13] at h
  by_cases c14 : pyStartswith line (pyS "Submitted") = true
  · rw [if_pos c14] at h
    by_cases c14a : (!(reFindallDigits line).isEmpty) = true
    · rw [if_pos c14a] at h
      obtain ⟨w, -, h⟩ := except_bind_ok _ _ _ h
      injection h with h
      subst h
      rfl
    · rw [if_neg c14a] at h
      injection h with h
      subst h
      rfl
  rw [if_neg c14] at h
  by_cases c15 : ((staticErrorLabels ++ dyn).any (fun x => pyStartswith line x) &&
      !(alistGet? (pyS "status") jd == some (Value.str (pyS "finished")))) = true
  · rw [if_pos c15] at h
    injection h with h
    subst h
    rfl
  · rw [if_neg c15] at h
    injection h with h
    subst h
    rfl

theorem alistGet?_dictUpdate_of_all_ne (k : PyStr) (d upd : JobDict)
    (h : (upd.all fun kv => !(kv.1 == k)) = true) :
    alistGet? k (dictUpdate d upd) = alistGet? k d := by
  induction upd generalizing d with
  | nil => rfl
  | cons hd t ih =>
    obtain ⟨k', v'⟩ := hd
    simp only [List.all_cons, Bool.and_eq_true, Bool.not_eq_eq_eq_not, Bool.not_true,
      beq_eq_false_iff_ne, ne_eq] at h
    have : dictUpdate d ((k', v') :: t) = dictUpdate (alistSet k' v' d) t := rfl
    rw [this, ih _ h.2, alistGet?_set_ne _ _ _ _ (fun hh => h.1 hh.symm)]

theorem innerScan_preserves_timestamp (dyn : List PyStr) (v : Value) :
    ∀ (rest : List PyStr) (jd jd' : JobDict) (b : Option PyStr) (r : List PyStr),
    alistGet? (pyS "timestamp") jd = some v →
    innerScan dyn rest jd = .ok (jd', b, r) →
    alistGet? (pyS "timestamp") jd' = some v := by
  intro rest
  induction rest with
  | nil =>
    intro jd jd' b r hts h
    injection h with h
    obtain ⟨rfl, -⟩ := Prod.mk.injEq .. ▸ (Prod.mk.inj h)
    exact hts
  | cons l ls ih =>
    intro jd jd' b r hts h
    unfold innerScan at h
    by_cases c1 : l.isEmpty = true
    · rw [if_pos c1] at h
      injection h with h
      obtain ⟨rfl, -⟩ := Prod.mk.injEq .. ▸ (Prod.mk.inj h)
      exact hts
    rw [if_neg c1] at h
    by_cases c2 : pyStartswith l (pyS "[") = true
    · rw [if_pos c2] at h
      injection h with h
      obtain ⟨rfl, -⟩ := Prod.mk.injEq .. ▸ (Prod.mk.inj h)
      exact hts
    rw [if_neg c2] at h
    by_cases c3 : (pyStripWs l).isEmpty = true
    · rw [if_pos c3] at h
      exact ih jd jd' b r hts h
    rw [if_neg c3] at h
    cases hg : parse_rule_grammar dyn (pyStripWs l) jd with
    | error e =>
      rw [hg] at h
      exact Except.noConfusion h
    | ok upd =>
      rw [hg] at h
      refine ih _ jd' b r ?_ h
      rw [alistGet?_dictUpdate_of_all_ne _ _ _
        (parse_rule_grammar_no_timestamp_key dyn (pyStripWs l) jd upd hg)]
      exact hts

theorem innerScan_length_le (dyn : List PyStr) :
    ∀ (rest : List PyStr) (jd jd' : JobDict) (b : Option PyStr) (r : List PyStr),
    innerScan dyn rest jd = .ok (jd', b, r) →
    optCount b + r.length ≤ rest.length := by
  intro rest
  induction rest with
  | nil =>
    intro jd jd' b r h
    injection h with h
    obtain ⟨-, h2⟩ := Prod.mk.inj h
    obtain ⟨rfl, rfl⟩ := Prod.mk.inj h2
    simp [optCount]
  | cons l ls ih =>
    intro jd jd' b r h
    unfold innerScan at h
    by_cases c1 : l.isEmpty = true
    · rw [if_pos c1] at h
      injection h with h
      obtain ⟨-, h2⟩ := Prod.mk.inj h
      obtain ⟨rfl, rfl⟩ := Prod.mk.inj h2
      simp only [optCount, List.length_cons]
      omega
    rw [if_neg c1] at h
    by_cases c2 : pyStartswith l (pyS "[") = true
    · rw [if_pos c2] at h
      injection h with h
      obtain ⟨-, h2⟩ := Prod.mk.inj h
      obtain ⟨rfl, rfl⟩ := Prod.mk.inj h2
      simp only [optCount, List.length_cons]
      omega
    rw [if_neg c2] at h
    by_cases c3 : (pyStripWs l).isEmpty = true
    · rw [if_pos c3] at h
      have := ih jd jd' b r h
      simp only [List.length_cons]
      omega
    rw [if_neg c3] at h
    cases hg : parse_rule_grammar dyn (pyStripWs l) jd with
    | error e =>
      rw [hg] at h
      exact Except.noConfusion h
    | ok upd =>
      rw [hg] at h
      have := ih _ jd' b r h
      simp only [List.length_cons]
      omega

theorem scanLoop_fuel_sufficient (dyn : List PyStr) (pts : PyStr → Option Int) :
    ∀ (fuel : Nat) (b : Option PyStr) (rest : List PyStr) (jobs : Jobs),
    optCount b + rest.length < fuel →
    scanLoop dyn pts fuel b rest jobs ≠ none := by
  intro fuel
  induction fuel with
  | zero =>
    intro b rest jobs hlt
    omega
  | succ fuel ih =>
    intro b rest jobs hlt
    match b with
    | none => simp [scanLoop]
    | some line =>
      unfold scanLoop
      by_cases c1 : line.isEmpty = true
      · simp [c1]
      rw [if_neg c1]
      by_cases c2 : (pyStartswith line (pyS "[") && !pyContains line (pyS "error")) = true
      · rw [if_pos c2]
        cases hts : pts (pyStripChars line (pyS "[]\n")) with
        | none => simp [hts]
        | some ts =>
          cases hscan : innerScan dyn rest [(pyS "timestamp", Value.time ts)] with
          | error e => simp [hts, hscan]
          | ok res =>
            obtain ⟨jd, b', r'⟩ := res
            cases hjid : getJobidAsInt jd with
            | error e => simp [hts, hscan, hjid]
            | ok jid =>
              simp only [hts, hscan, hjid]
              have hlen := innerScan_length_le dyn rest _ jd b' r' hscan
              refine ih b' r' (jobsUpdate jobs jid jd) ?_
              simp only [optCount, List.length_cons] at hlt hlen ⊢
              omega
      rw [if_neg c2]
      by_cases c3 : ((staticErrorLabels ++ dyn).any fun x => pyStartswith line x) = true
      · simp [c3]
      rw [if_neg c3]
      by_cases c4 : pyStartswith line (pyS "Unlocking") = true
      · simp [c4]
      rw [if_neg c4]
      by_cases c5 : pyStartswith line (pyS "Nothing to be done") = true
      · simp [c5]
      rw [if_neg c5]
      refine ih rest.head? rest.tail jobs ?_
      cases rest with
      | nil =>
        simp only [optCount, List.length_nil, List.head?_nil, List.tail_nil] at hlt ⊢
        omega
      | cons x xs =>
        simp only [optCount, List.length_cons, List.head?_cons, List.tail_cons] at hlt ⊢
        omega

theorem alistGet?_set [DecidableEq κ] (k k' : κ) (v : β) (l : List (κ × β)) :
    alistGet? k (alistSet k' v l) = if k = k' then some v else alistGet? k l := by
  by_cases h : k = k'
  · subst h
    simp [alistGet?_set_self]
  · simp [h, alistGet?_set_ne _ _ _ _ h]

theorem total_number_of_jobs_alistSet (sm : Summary) (r : Value)
    (d : List (Value × Int)) :
    total_number_of_jobs (alistSet r d sm) =
      total_number_of_jobs sm
        - (alistGet? (Value.str (pyS "number_of_jobs"))
            ((alistGet? r sm).getD [])).getD 0
        + (alistGet? (Value.str (pyS "number_of_jobs")) d).getD 0 := by
  induction sm with
  | nil => simp [alistSet, total_number_of_jobs, alistGet?]
  | cons hd t ih =>
    obtain ⟨k, i⟩ := hd
    by_cases hk : r = k
    · subst hk
      simp [alistSet, total_number_of_jobs, alistGet?]
      omega
    · have h1 : alistSet r d ((k, i) :: t) = (k, i) :: alistSet r d t := by
        simp [alistSet, hk]
      have h2 : alistGet? r ((k, i) :: t) = alistGet? r t := by
        simp [alistGet?, hk]
      rw [h1, h2]
      simp only [total_number_of_jobs, List.map_cons, List.sum_cons] at ih ⊢
      omega

theorem execution_summary_step_ok_rule (sm sm' : Summary) (v : JobDict)
    (h : execution_summary_step sm v = .ok sm') :
    ∃ r0, alistGet? (pyS "rule") v = some r0 ∧ pyHashable r0 = true := by
  unfold execution_summary_step at h
  obtain ⟨r0, hr0, h⟩ := except_bind_ok _ _ _ h
  refine ⟨r0, ?_, ?_⟩
  · unfold getItem at hr0
    cases hg : alistGet? (pyS "rule") v with
    | none => rw [hg] at hr0; exact Except.noConfusion hr0
    | some w => rw [hg] at hr0; injection hr0 with hr0; rw [hr0]
  · by_cases hh : (!pyHashable r0) = true
    · rw [if_pos hh] at h
      exact Except.noConfusion h
    · simpa using hh

theorem execution_summary_step_total (sm sm' : Summary) (v : JobDict)
    (hst : ∀ st, alistGet? (pyS "status") v = some st →
      st ≠ Value.str (pyS "number_of_jobs"))
    (h : execution_summary_step sm v = .ok sm') :
    total_number_of_jobs sm' = total_number_of_jobs sm + 1 := by
  unfold execution_summary_step at h
  obtain ⟨r0, hr0, h⟩ := except_bind_ok _ _ _ h
  by_cases hh : (!pyHashable r0) = true
  · rw [if_pos hh] at h
    exact Except.noConfusion h
  rw [if_neg hh] at h
  cases hstv : alistGet? (pyS "status") v with
  | none =>
    rw [hstv] at h
    simp only at h
    injection h with h
    subst h
    rw [total_number_of_jobs_alistSet, alistGet?_set_self]
    simp only [Option.getD_some]
    omega
  | some st0 =>
    rw [hstv] at h
    simp only at h
    by_cases hsh : (!pyHashable st0) = true
    · rw [if_pos hsh] at h
      exact Except.noConfusion h
    rw [if_neg hsh] at h
    injection h with h
    subst h
    have hne : Value.str (pyS "number_of_jobs") ≠ st0 :=
      fun hh2 => hst st0 hstv hh2.symm
    rw [total_number_of_jobs_alistSet, alistGet?_set_self,
      alistGet?_set_ne _ _ _ _ hne, total_number_of_jobs_alistSet,
      alistGet?_set_self]
    simp only [Option.getD_some]
    omega

theorem execution_summary_step_statusCount (sm sm' : Summary) (v : JobDict)
    (r0 : Value) (hr : alistGet? (pyS "rule") v = some r0)
    (h : execution_summary_step sm v = .ok sm') (rr st : Value)
    (hstne : st ≠ Value.str (pyS "number_of_jobs")) :
    statusCount sm' rr st = statusCount sm rr st +
      (if rr = r0 ∧ alistGet? (pyS "status") v = some st then 1 else 0) := by
  unfold execution_summary_step at h
  obtain ⟨r1, hr1, h⟩ := except_bind_ok _ _ _ h
  have hr1' : r0 = r1 := by
    unfold getItem at hr1
    rw [hr] at hr1
    exact Except.ok.inj hr1
  subst hr1'
  by_cases hh : (!pyHashable r0) = true
  · rw [if_pos hh] at h
    exact Except.noConfusion h
  rw [if_neg hh] at h
  cases hstv : alistGet? (pyS "status") v with
  | none =>
    rw [hstv] at h
    simp only at h
    injection h with h
    subst h
    by_cases hrr : rr = r0
    · subst hrr
      simp only [statusCount, alistGet?_set_self, Option.getD_some]
      rw [alistGet?_set_ne _ _ _ _ hstne]
      simp [hstv]
    · simp only [statusCount]
      rw [alistGet?_set_ne _ _ _ _ hrr]
      simp [hrr]
  | some st0 =>
    rw [hstv] at h
    simp only at h
    by_cases hsh : (!pyHashable st0) = true
    · rw [if_pos hsh] at h
      exact Except.noConfusion h
    rw [if_neg hsh] at h
    injection h with h
    subst h
    by_cases hrr : rr = r0
    · subst hrr
      simp only [statusCount, alistGet?_set_self, Option.getD_some]
      by_cases hss : st = st0
      · subst hss
        rw [alistGet?_set_self]
        rw [alistGet?_set_ne _ _ _ _ hstne]
        simp [hstv]
      · rw [alistGet?_set_ne _ _ _ _ hss]
        rw [alistGet?_set_ne _ _ _ _ hstne]
        have hcond : ¬ (st0 = st) := fun hx => hss hx.symm
        simp [statusCount, hstv, hcond]
    · simp only [statusCount]
      rw [alistGet?_set_ne _ _ _ _ hrr, alistGet?_set_ne _ _ _ _ hrr]
      simp [hrr]

theorem countRecords_cons (v : JobDict) (vs : List JobDict) (rr st : Value) :
    countRecords (v :: vs) rr st =
      (if alistGet? (pyS "rule") v = some rr ∧ alistGet? (pyS "status") v = some st
        then 1 else 0) + countRecords vs rr st := by
  unfold countRecords
  by_cases h1 : alistGet? (pyS "rule") v = some rr
  · by_cases h2 : alistGet? (pyS "status") v = some st
    · simp [List.filter_cons, h1, h2]
      omega
    · simp [List.filter_cons, h1, h2]
  · simp [List.filter_cons, h1]

theorem execution_summary_go_total :
    ∀ (vs : List JobDict) (sm sm' : Summary),
    (∀ v ∈ vs, ∀ st, alistGet? (pyS "status") v = some st →
      st ≠ Value.str (pyS "number_of_jobs")) →
    execution_summary_go sm vs = .ok sm' →
    total_number_of_jobs sm' = total_number_of_jobs sm + vs.length := by
  intro vs
  induction vs with
  | nil =>
    intro sm sm' _ h
    injection h with h
    subst h
    simp
  | cons v vs ih =>
    intro sm sm' hst h
    unfold execution_summary_go at h
    cases hs : execution_summary_step sm v with
    | error e =>
      rw [hs] at h
      exact Except.noConfusion h
    | ok sm1 =>
      rw [hs] at h
      simp only at h
      have h1 := execution_summary_step_total sm sm1 v
        (fun st hsv => hst v (List.mem_cons_self ..) st hsv) hs
      have h2 := ih sm1 sm'
        (fun w hw st hsv => hst w (List.mem_cons_of_mem _ hw) st hsv) h
      simp only [List.length_cons]
      push_cast
      omega

theorem execution_summary_go_statusCount :
    ∀ (vs : List JobDict) (sm sm' : Summary),
    execution_summary_go sm vs = .ok sm' →
    ∀ rr st, st ≠ Value.str (pyS "number_of_jobs") →
    statusCount sm' rr st = statusCount sm rr st + countRecords vs rr st := by
  intro vs
  induction vs with
  | nil =>
    intro sm sm' h rr st _
    injection h with h
    subst h
    simp [countRecords]
  | cons v vs ih =>
    intro sm sm' h rr st hstne
    unfold execution_summary_go at h
    cases hs : execution_summary_step sm v with
    | error e =>
      rw [hs] at h
      exact Except.noConfusion h
    | ok sm1 =>
      rw [hs] at h
      simp only at h
      obtain ⟨r0, hr0, -⟩ := execution_summary_step_ok_rule sm sm1 v hs
      have h1 := execution_summary_step_statusCount sm sm1 v r0 hr0 hs rr st hstne
      have h2 := ih sm1 sm' h rr st hstne
      by_cases hcond : rr = r0 ∧ alistGet? (pyS "status") v = some st
      · rw [if_pos hcond] at h1
        have hcond2 : alistGet? (pyS "rule") v = some rr ∧
            alistGet? (pyS "status") v = some st := ⟨by rw [hr0, hcond.1], hcond.2⟩
        rw [countRecords_cons, if_pos hcond2]
        push_cast
        omega
      · rw [if_neg hcond] at h1
        have hcond2 : ¬ (alistGet? (pyS "rule") v = some rr ∧
            alistGet? (pyS "status") v = some st) := by
          rintro ⟨hx, hy⟩
          rw [hr0] at hx
          exact hcond ⟨(Option.some.inj hx).symm, hy⟩
        rw [countRecords_cons, if_neg hcond2]
        push_cast
        omega

theorem scanLoop_outcome (dyn : List PyStr) (pts : PyStr → Option Int) :
    ∀ (fuel : Nat) (b : Option PyStr) (rest : List PyStr) (jobs : Jobs)
      (err : Option SnakemakeStatus) (msg : PyStr) (jobs' : Jobs),
    scanLoop dyn pts fuel b rest jobs = some (.ok (err, msg, jobs')) →
    (err = none ∧ msg = pyS "") ∨
    (err = some .ERROR ∧ msg = pyS "Snakemake exited with an error") ∨
    (err = some .UNLOCKED ∧ msg = pyS "Snakemake directory was unlocked") ∨
    (err = some .SUCCESS ∧ msg = pyS "Nothing to be done") := by
  intro fuel
  induction fuel with
  | zero =>
    intro b rest jobs err msg jobs' h
    exact Option.noConfusion h
  | succ fuel ih =>
    intro b rest jobs err msg jobs' h
    match b with
    | none =>
      simp only [scanLoop, Option.some.injEq, Except.ok.injEq, Prod.mk.injEq] at h
      exact Or.inl ⟨h.1.symm, h.2.1.symm⟩
    | some line =>
      unfold scanLoop at h
      by_cases c1 : line.isEmpty = true
      · rw [if_pos c1] at h
        simp only [Option.some.injEq, Except.ok.injEq, Prod.mk.injEq] at h
        exact Or.inl ⟨h.1.symm, h.2.1.symm⟩
      rw [if_neg c1] at h
      by_cases c2 : (pyStartswith line (pyS "[") && !pyContains line (pyS "error")) = true
      · rw [if_pos c2] at h
        cases hts : pts (pyStripChars line (pyS "[]\n")) with
        | none =>
          rw [hts] at h
          exact absurd h (by simp)
        | some ts =>
          rw [hts] at h
          simp only at h
          cases hscan : innerScan dyn rest [(pyS "timestamp", Value.time ts)] with
          | error e =>
            rw [hscan] at h
            exact absurd h (by simp)
          | ok res =>
            obtain ⟨jd, b', r'⟩ := res
            rw [hscan] at h
            simp only at h
            cases hjid : getJobidAsInt jd with
            | error e =>
              rw [hjid] at h
              exact absurd h (by simp)
            | ok jid =>
              rw [hjid] at h
              simp only at h
              exact ih b' r' (jobsUpdate jobs jid jd) err msg jobs' h
      rw [if_neg c2] at h
      by_cases c3 : ((staticErrorLabels ++ dyn).any fun x => pyStartswith line x) = true
      · rw [if_pos c3] at h
        simp only [Option.some.injEq, Except.ok.injEq, Prod.mk.injEq] at h
        exact Or.inr (Or.inl ⟨h.1.symm, h.2.1.symm⟩)
      rw [if_neg c3] at h
      by_cases c4 : pyStartswith line (pyS "Unlocking") = true
      · rw [if_pos c4] at h
        simp only [Option.some.injEq, Except.ok.injEq, Prod.mk.injEq] at h
        exact Or.inr (Or.inr (Or.inl ⟨h.1.symm, h.2.1.symm⟩))
      rw [if_neg c4] at h
      by_cases c5 : pyStartswith line (pyS "Nothing to be done") = true
      · rw [if_pos c5] at h
        simp only [Option.some.injEq, Except.ok.injEq, Prod.mk.injEq] at h
        exact Or.inr (Or.inr (Or.inr ⟨h.1.symm, h.2.1.symm⟩))
      rw [if_neg c5] at h
      exact ih rest.head? rest.tail jobs err msg jobs' h

/-- The standard fuel of `parse_jobs_in_log` never runs out: the model
always returns a genuine Python result (a value or an exception). -/
theorem parse_jobs_in_log_ne_none (dyn : List PyStr) (pts : PyStr → Option Int)
    (lines : List PyStr) : parse_jobs_in_log dyn pts lines ≠ none := by
  cases lines with
  | nil => simp [parse_jobs_in_log]
  | cons first rest =>
    unfold parse_jobs_in_log
    refine scanLoop_fuel_sufficient dyn pts _ (some first) rest [] ?_
    simp only [optCount, List.length_cons]
    omega

theorem any_startswith_eq_false (L : List PyStr) (c : Char) (t : PyStr)
    (h : (L.all fun x => match x with | [] => false | d :: _ => d != c) = true) :
    (L.any fun x => pyStartswith (c :: t) x) = false := by
  induction L with
  | nil => rfl
  | cons x xs ih =>
    simp only [List.all_cons, Bool.and_eq_true] at h
    cases x with
    | nil => exact absurd h.1 (by simp)
    | cons d ds =>
      have hd : ¬ d = c := by simpa using h.1
      have hcd : (c == d) = false := by
        simp only [beq_eq_false_iff_ne, ne_eq]
        exact fun hx => hd hx.symm
      simp [List.any_cons, pyStartswith, hcd, ih h.2]

/-- C1: the spec claims the line classifier never raises and degrades every
unrecognized or malformed line to a partial or empty result.  The code
violates this: the bare line "rule" takes the rule branch and
`line.strip(":").split()[1]` raises `IndexError`, and the bare line
"output" (asserted to yield an empty mapping by the repository's own test
suite) raises `IndexError` at `line.split(":")[1]`. -/
theorem parse_rule_grammar_bare_lines_raise (dyn : List PyStr) :
    parse_rule_grammar dyn (pyS "rule") [] = .error .indexError ∧
    parse_rule_grammar dyn (pyS "output") [] = .error .indexError :=
  ⟨rfl, rfl⟩

/-- C2: `classify("jobid: 123", {})` does return the integer field update
`{"jobid": 123}`, but the absent/unparseable cases raise instead of
yielding an absent jobid: "jobid:" raises `ValueError` from `int("")`,
and "jobid" raises `IndexError` from `line.split(":")[1]` (the latter is
asserted to return `{"jobid": None}` by the repository's own tests). -/
theorem parse_rule_grammar_jobid_cases (dyn : List PyStr) :
    parse_rule_grammar dyn (pyS "jobid: 123") [] = .ok [(pyS "jobid", .int 123)] ∧
    parse_rule_grammar dyn (pyS "jobid:") [] = .error .valueError ∧
    parse_rule_grammar dyn (pyS "jobid") [] = .error .indexError :=
  ⟨rfl, rfl, rfl⟩

/-- C3: `classify("output: a.txt, b.txt", {})` does split on the colon and
the commas with trimming, but the zero-length-remainder cases do not yield
the empty sequence: "output:" yields `{"output": [""]}` (a one-element
list holding the empty string) and the bare "output" raises `IndexError`
(the repository's own tests assert it returns `{"output": []}`). -/
theorem parse_rule_grammar_output_cases (dyn : List PyStr) :
    parse_rule_grammar dyn (pyS "output: a.txt, b.txt") [] =
      .ok [(pyS "output", .strlist [pyS "a.txt", pyS "b.txt"])] ∧
    parse_rule_grammar dyn (pyS "output:") [] = .ok [(pyS "output", .strlist [[]])] ∧
    parse_rule_grammar dyn (pyS "output") [] = .error .indexError :=
  ⟨rfl, rfl, rfl⟩

/-- C4: a "Submitted" line with two digit runs yields the second run as
external job id plus status submitted, and a "Submitted" line with zero
digit runs yields `{"external_jobid": [], "status": "submitted"}` without
raising; but a "Submitted" line with exactly one digit run raises
`IndexError` at `external_jobid[1]` (the `if external_jobid:` guard only
protects the zero-run case), contradicting the claim that fewer than two
digit runs still produce status submitted without raising. -/
theorem parse_rule_grammar_submitted_cases (dyn : List PyStr) :
    parse_rule_grammar dyn (pyS "Submitted job 5 with external jobid 1234.") [] =
      .ok [(pyS "external_jobid", .str (pyS "1234")),
           (pyS "status", .str (pyS "submitted"))] ∧
    parse_rule_grammar dyn (pyS "Submitted") [] =
      .ok [(pyS "external_jobid", .strlist []),
           (pyS "status", .str (pyS "submitted"))] ∧
    parse_rule_grammar dyn (pyS "Submitted job 5") [] = .error .indexError :=
  ⟨rfl, rfl, rfl⟩

/-- C10: the assembler reads `next(f)` before its loop, so the empty log
raises `StopIteration` instead of returning an (outcome, message, jobs)
triple. -/
theorem parse_jobs_in_log_empty_raises (dyn : List PyStr) (pts : PyStr → Option Int) :
    parse_jobs_in_log dyn pts [] = some (.error .stopIteration) :=
  rfl

/-- C5 (amended): the assembler never produces the `CATCHALL_ERROR`
outcome; a scan that completes without hitting a terminal marker line
returns outcome `None` with an empty message, and each terminal outcome
carries its fixed message. -/
theorem parse_jobs_in_log_outcome (dyn : List PyStr) (pts : PyStr → Option Int)
    (lines : List PyStr) (err : Option SnakemakeStatus) (msg : PyStr) (jobs : Jobs)
    (h : parse_jobs_in_log dyn pts lines = some (.ok (err, msg, jobs))) :
    err ≠ some SnakemakeStatus.CATCHALL_ERROR ∧
    ((err = none ∧ msg = pyS "") ∨
     (err = some .ERROR ∧ msg = pyS "Snakemake exited with an error") ∨
     (err = some .UNLOCKED ∧ msg = pyS "Snakemake directory was unlocked") ∨
     (err = some .SUCCESS ∧ msg = pyS "Nothing to be done")) := by
  cases lines with
  | nil =>
    simp only [parse_jobs_in_log] at h
    injection h with h
    exact Except.noConfusion h
  | cons first rest =>
    unfold parse_jobs_in_log at h
    have h2 := scanLoop_outcome dyn pts _ (some first) rest [] err msg jobs h
    refine ⟨?_, h2⟩
    rcases h2 with ⟨h3, -⟩ | ⟨h3, -⟩ | ⟨h3, -⟩ | ⟨h3, -⟩ <;> simp [h3]

/-- C5 (counterexample): a one-line log with no terminal marker returns
outcome `None` and the empty message, not the catchall-error outcome the
spec claims. -/
theorem no_terminal_marker_yields_none_outcome :
    parse_jobs_in_log [] noTS [pyS "hello\n"] = some (.ok (none, pyS "", [])) ∧
    (none : Option SnakemakeStatus) ≠ some SnakemakeStatus.CATCHALL_ERROR :=
  ⟨by decide, by decide⟩

/-- C5 (witness): the amended outcome theorem applied to the concrete
marker-less log ["hello\n"]. -/
theorem parse_jobs_in_log_outcome_witness :
    (none : Option SnakemakeStatus) ≠ some SnakemakeStatus.CATCHALL_ERROR ∧
    (((none : Option SnakemakeStatus) = none ∧ pyS "" = pyS "") ∨
     ((none : Option SnakemakeStatus) = some .ERROR ∧
       pyS "" = pyS "Snakemake exited with an error") ∨
     ((none : Option SnakemakeStatus) = some .UNLOCKED ∧
       pyS "" = pyS "Snakemake directory was unlocked") ∨
     ((none : Option SnakemakeStatus) = some .SUCCESS ∧
       pyS "" = pyS "Nothing to be done")) :=
  parse_jobs_in_log_outcome [] noTS [pyS "hello\n"] none (pyS "") [] (by decide)

/-- C9: a log whose first line starts with "Unlocking" (and is not caught
by the configured error catalog) makes the assembler stop immediately at
that line — whatever follows is never read — returning the unlocked
outcome, its message, and an empty job mapping. -/
theorem unlocking_line_stops_scan (dyn : List PyStr) (pts : PyStr → Option Int)
    (line : PyStr) (rest : List PyStr)
    (h : pyStartswith line (pyS "Unlocking") = true)
    (hdyn : ∀ L ∈ dyn, pyStartswith line L = false) :
    parse_jobs_in_log dyn pts (line :: rest) =
      some (.ok (some .UNLOCKED, pyS "Snakemake directory was unlocked", [])) := by
  obtain ⟨tl, htl⟩ := (pyStartswith_iff line (pyS "Unlocking")).mp h
  subst htl
  have he : pyS "Unlocking" ++ tl = 'U' :: (pyS "nlocking" ++ tl) := rfl
  rw [he] at hdyn ⊢
  have herr : ((staticErrorLabels ++ dyn).any fun x =>
      pyStartswith ('U' :: (pyS "nlocking" ++ tl)) x) = false := by
    rw [List.any_append]
    have hstat := any_startswith_eq_false staticErrorLabels 'U'
      (pyS "nlocking" ++ tl) (by decide)
    rw [hstat]
    simp only [Bool.false_or, List.any_eq_false]
    intro x hx
    simp [hdyn x hx]
  have hunlock : pyStartswith ('U' :: (pyS "nlocking" ++ tl)) (pyS "Unlocking") = true := by
    rw [pyStartswith_iff]
    exact ⟨tl, rfl⟩
  unfold parse_jobs_in_log
  simp only [List.length_cons]
  unfold scanLoop
  have c1 : ('U' :: (pyS "nlocking" ++ tl)).isEmpty = false := rfl
  have c2 : (pyStartswith ('U' :: (pyS "nlocking" ++ tl)) (pyS "[") &&
      !pyContains ('U' :: (pyS "nlocking" ++ tl)) (pyS "error")) = false := rfl
  rw [c1, c2, herr, hunlock]
  simp

/-- C9 (witness): the unlocking theorem at a concrete log whose second
line is junk that is provably never read, with a nonempty dynamic error
catalog. -/
theorem unlocking_line_stops_scan_witness :
    parse_jobs_in_log [pyS "RuleException"] noTS
      [pyS "Unlocking working directory\n", pyS "junk\n"] =
      some (.ok (some .UNLOCKED, pyS "Snakemake directory was unlocked", [])) :=
  unlocking_line_stops_scan [pyS "RuleException"] noTS
    (pyS "Unlocking working directory\n") [pyS "junk\n"] (by decide) (by decide)

/-- C6: while scanning for a block, a line starting with "[" whose
bracket-stripped content the external timestamp parser accepts makes the
assembler open a new job record holding exactly the parsed timestamp and
hand the remaining lines to the inner block scan; whatever record the
inner scan returns still carries that timestamp.  The hypothesis on `pts`
mirrors dateutil: a string containing "error" never parses, so the code's
`not "error" in line` guard cannot exclude such a line. -/
theorem timestamp_line_opens_block (dyn : List PyStr) (pts : PyStr → Option Int)
    (fuel : Nat) (line : PyStr) (rest : List PyStr) (jobs : Jobs) (t : Int)
    (hp : ∀ s, pyContains s (pyS "error") = true → pts s = none)
    (hstart : pyStartswith line (pyS "[") = true)
    (hts : pts (pyStripChars line (pyS "[]\n")) = some t) :
    scanLoop dyn pts (fuel + 1) (some line) rest jobs =
      (match innerScan dyn rest [(pyS "timestamp", Value.time t)] with
        | .error e => some (.error e)
        | .ok (jd, begin', rest') =>
          match getJobidAsInt jd with
          | .error e => some (.error e)
          | .ok jid => scanLoop dyn pts fuel begin' rest' (jobsUpdate jobs jid jd)) ∧
    (∀ jd begin' rest',
      innerScan dyn rest [(pyS "timestamp", Value.time t)] = .ok (jd, begin', rest') →
      alistGet? (pyS "timestamp") jd = some (Value.time t)) := by
  have hnc : pyContains line (pyS "error") = false := by
    cases hcc : pyContains line (pyS "error") with
    | false => rfl
    | true =>
      have hchars : ∀ c ∈ pyS "error", (fun c => (pyS "[]\n").contains c) c = false := by
        decide
      have h2 := pyContains_stripP_of_notin _ _ _ hchars hcc
      have h3 := hp _ h2
      rw [show pyStripChars line (pyS "[]\n") =
        stripP (fun c => (pyS "[]\n").contains c) line from rfl, h3] at hts
      exact Option.noConfusion hts
  have hne : line.isEmpty = false := by
    cases line with
    | nil => exact absurd hstart (by decide)
    | cons a l => rfl
  have hcond : (pyStartswith line (pyS "[") && !pyContains line (pyS "error")) = true := by
    rw [hstart, hnc]
    rfl
  constructor
  · conv_lhs => unfold scanLoop
    rw [hne, hcond, hts]
    simp
  · intro jd b r hscan
    exact innerScan_preserves_timestamp dyn (Value.time t) rest _ jd b r (by simp [alistGet?]) hscan

/-- C6 (witness): the block-opening theorem at a concrete timestamp line
and a concrete stand-in timestamp parser. -/
theorem timestamp_line_opens_block_witness :
    scanLoop [] tsParse1 4 (some (pyS "[2023-05-01]\n")) [] [] =
      (match innerScan [] [] [(pyS "timestamp", Value.time 20230501)] with
        | .error e => some (.error e)
        | .ok (jd, begin', rest') =>
          match getJobidAsInt jd with
          | .error e => some (.error e)
          | .ok jid => scanLoop [] tsParse1 3 begin' rest' (jobsUpdate [] jid jd)) :=
  (timestamp_line_opens_block [] tsParse1 3 (pyS "[2023-05-01]\n") [] [] 20230501
    (by
      intro s hs
      by_cases hx : s = pyS "2023-05-01"
      · subst hx
        exact absurd hs (by decide)
      · simp [tsParse1, hx])
    (by decide) (by decide)).1

/-- C7 (counterexample): a record without a "rule" key makes the
summarizer raise `KeyError` instead of producing counts, and a record
whose status is the literal string "number_of_jobs" collides with the
job counter, so a single-record mapping sums to 2 rather than 1. -/
theorem execution_summary_counterexample :
    execution_summary [[]] = .error .keyError ∧
    execution_summary [[(pyS "rule", .str (pyS "r")),
        (pyS "status", .str (pyS "number_of_jobs"))]] =
      .ok [(.str (pyS "r"), [(.str (pyS "number_of_jobs"), 2)])] ∧
    total_number_of_jobs [(.str (pyS "r"), [(.str (pyS "number_of_jobs"), 2)])] = 2 :=
  ⟨by decide, by decide, by decide⟩

/-- C7 (amended): whenever the summarizer returns a summary (which
requires every record to carry a hashable rule value) and no record's
status is the reserved inner key "number_of_jobs", the per-rule
number_of_jobs counters sum to the number of job records, and each
per-rule per-status counter equals the number of records with that rule
and that status. -/
theorem execution_summary_counts (vs : List JobDict) (sm : Summary)
    (hst : ∀ v ∈ vs, ∀ st, alistGet? (pyS "status") v = some st →
      st ≠ Value.str (pyS "number_of_jobs"))
    (h : execution_summary vs = .ok sm) :
    total_number_of_jobs sm = vs.length ∧
    (∀ r st, st ≠ Value.str (pyS "number_of_jobs") →
      statusCount sm r st = countRecords vs r st) := by
  constructor
  · have h1 := execution_summary_go_total vs [] sm hst h
    simpa [total_number_of_jobs] using h1
  · intro r st hstne
    have h2 := execution_summary_go_statusCount vs [] sm h r st hstne
    simpa [statusCount, alistGet?] using h2

/-- C7 (witness): the counting theorem at a concrete two-record mapping
sharing one rule, one record finished. -/
theorem execution_summary_counts_witness :
    total_number_of_jobs [(.str (pyS "a"),
        [(.str (pyS "number_of_jobs"), 2), (.str (pyS "finished"), 1)])] = (2 : Int) ∧
    statusCount [(.str (pyS "a"),
        [(.str (pyS "number_of_jobs"), 2), (.str (pyS "finished"), 1)])]
      (.str (pyS "a")) (.str (pyS "finished")) = 1 := by
  have hst : ∀ v ∈ ([[(pyS "rule", Value.str (pyS "a")),
        (pyS "status", Value.str (pyS "finished"))],
       [(pyS "rule", Value.str (pyS "a"))]] : List JobDict),
      ∀ st, alistGet? (pyS "status") v = some st →
      st ≠ Value.str (pyS "number_of_jobs") := by
    intro v hv st hsv
    simp only [List.mem_cons, List.not_mem_nil, or_false] at hv
    rcases hv with rfl | rfl
    · rw [show alistGet? (pyS "status") [(pyS "rule", Value.str (pyS "a")),
        (pyS "status", Value.str (pyS "finished"))] =
        some (Value.str (pyS "finished")) from by decide] at hsv
      obtain rfl := Option.some.inj hsv
      decide
    · rw [show alistGet? (pyS "status") [(pyS "rule", Value.str (pyS "a"))] =
        (none : Option Value) from by decide] at hsv
      exact Option.noConfusion hsv
  have h := execution_summary_counts
    [[(pyS "rule", .str (pyS "a")), (pyS "status", .str (pyS "finished"))],
     [(pyS "rule", .str (pyS "a"))]]
    [(.str (pyS "a"), [(.str (pyS "number_of_jobs"), 2), (.str (pyS "finished"), 1)])]
    hst (by decide)
  refine ⟨by simpa using h.1, ?_⟩
  have h2 := h.2 (.str (pyS "a")) (.str (pyS "finished")) (by decide)
  rw [show countRecords
    [[(pyS "rule", .str (pyS "a")), (pyS "status", .str (pyS "finished"))],
     [(pyS "rule", .str (pyS "a"))]]
    (.str (pyS "a")) (.str (pyS "finished")) = 1 from by decide] at h2
  simpa using h2

/-- C8: the status view's percentage computation divides by
`int(stats.get("total", JobStats).count)` with no zero guard, so a stats
table declaring a planned total of 0 jobs raises `ZeroDivisionError`
instead of reporting a defensive 0% result. -/
theorem status_percentages_zero_total_raises :
    status_percentages [(pyS "total",
      { name := some (pyS "total"), count := some (pyS "0"),
        min_threads := some (pyS "1"), max_threads := some (pyS "1") })] 0 0 =
      .error .zeroDivisionError := by
  decide
